import Mathlib

/-!
Verification of the QFT neutral-atom compilation pipeline
(`2025/submission/QFT_Neutral_Atoms.ipynb`).

The repository's own code is the notebook: the dialect group `extended_opt`
with its custom `run_pass`, and the circuit builders `qft`,
`dyadic_roatation_layer`, `cnot_fanout_layer`.  The compiler passes that
`run_pass` invokes (`RydbergGateSetRewriteRule`, `QASM2Fold`,
`UOpToParallel`, and the base `qasm2.extended.run_pass`) live in the
bloqade/kirin libraries and are not part of the repository; where a claim
depends on their behaviour they are modelled from the specification, and
each such definition says so in its doc comment.
-/

namespace QftPipeline

/-! ## Circuit IR (spec section 3, gate kinds from the notebook) -/

/-- Gate kinds appearing in the notebook (`x`, `h`, `rz`, `cx`) together
with the neutral-atom native rotation/entangling kinds (`rx`, `cz`) that
decomposition introduces. -/
inductive GateKind
  | x
  | h
  | rx
  | rz
  | cx
  | cz
deriving DecidableEq

/-- Operation: tagged variant per spec section 3 — a gate with an ordered
qubit list and real parameters (angles are dyadic multiples of pi, stored
as the exact rational coefficient of pi), a measurement, or a barrier. -/
inductive Op
  | gate (kind : GateKind) (qubits : List Nat) (params : List ℚ)
  | measure (qubit : Nat) (cbit : Nat)
  | barrier (qubits : List Nat)
deriving DecidableEq

/-- Qubits touched by an operation. -/
def qubitsOf : Op → List Nat
  | .gate _ qs _ => qs
  | .measure q _ => [q]
  | .barrier qs => qs

/-- Diagonal / phase-only operations: `rz` rotations and `cz`.  Modelled
from the spec: the commutation relation treats two operations as commuting
on overlapping qubits exactly when both are diagonal/phase-only. -/
def isDiagonal : Op → Bool
  | .gate .rz _ _ => true
  | .gate .cz _ _ => true
  | _ => false

/-- Boolean test that an operation touches qubit `q`. -/
def touches (q : Nat) (op : Op) : Bool :=
  decide (q ∈ qubitsOf op)

/-! ## The custom `run_pass` of `extended_opt` (notebook cell 3)

The notebook's `run_pass(kernel, *, fold=True, typeinfer=True,
parallelize=False)` first calls the base `qasm2.extended.run_pass` with
`fold` and `typeinfer`, then applies the native-gate decomposition walk,
and, only when `parallelize` is true, the loop-fold fixpoint followed by
the parallelization pass.  We embed the pipeline as the ordered trace of
pass events it performs on the kernel. -/

/-- Pass events of the pipeline, in the notebook's vocabulary:
type-inference validation and folding inside the base
`qasm2.extended.run_pass`, the `native_rewrite` decomposition walk, the
`agg_fold.fixpoint` loop fold, and the `parallelize_pass` scheduler. -/
inductive PassEvent
  | typeInferCheck
  | baseFold
  | nativeDecompose
  | aggFoldFix
  | parallelSchedule
deriving DecidableEq

/-- Keyword flags of `run_pass`, with the notebook's default values
(`fold: bool = True`, `typeinfer: bool = True`,
`parallelize: bool = False`). -/
structure RunPassFlags where
  fold : Bool := true
  typeinfer : Bool := true
  parallelize : Bool := false

/-- Modelled from the spec: the base `qasm2.extended.run_pass` is library
code; per the configuration surface, `typeinfer` validates
operation/parameter types (before decomposition) and `fold` applies the
base fold (before scheduling). -/
def baseRunPassEvents (fold typeinfer : Bool) : List PassEvent :=
  (if typeinfer then [PassEvent.typeInferCheck] else [])
    ++ (if fold then [PassEvent.baseFold] else [])

/-- Trace of pass events performed by the notebook's `run_pass`: the base
pass, then the native-gate decomposition walk, then — only if
`parallelize` — the loop-fold fixpoint followed by the parallelization
scheduler, in that order. -/
def runPassEvents (flags : RunPassFlags) : List PassEvent :=
  baseRunPassEvents flags.fold flags.typeinfer
    ++ [PassEvent.nativeDecompose]
    ++ (if flags.parallelize then
          [PassEvent.aggFoldFix, PassEvent.parallelSchedule]
        else [])

/-! ## Parallelization scheduler (`UOpToParallel`)

Modelled from the spec: `UOpToParallel` is library code.  Spec section
4.5: process operations in program order; an operation may join the most
recently opened layer when, for every operation already placed there, the
two are qubit-disjoint or provably commuting (both diagonal/phase-only);
otherwise it starts a new layer appended after the frontier; greedy,
single forward pass, no backtracking.  A barrier touches its qubit set
and is never diagonal, so operations overlapping the barrier's qubits are
forced strictly after its layer. -/

/-- Boolean qubit-disjointness of two operations. -/
def qubitDisjoint (a b : Op) : Bool :=
  (qubitsOf a).all fun q => decide (q ∉ qubitsOf b)

/-- Commutation relation, modelled from the spec: two operations may share
a layer iff they are qubit-disjoint or both diagonal/phase-only. -/
def compat (a b : Op) : Bool :=
  qubitDisjoint a b || (isDiagonal a && isDiagonal b)

/-- Worker for the scheduler: `done` holds the closed layers, `cur` the
most recently opened layer. -/
def schedGo : List (List Op) → List Op → List Op → List (List Op)
  | done, cur, [] => done ++ [cur]
  | done, cur, o :: rest =>
    if cur.all (fun p => compat p o) then schedGo done (cur ++ [o]) rest
    else schedGo (done ++ [cur]) [o] rest

/-- Modelled from the spec: the parallelization scheduler partitions the
operation stream into ordered layers (spec section 4.5). -/
def schedule : List Op → List (List Op)
  | [] => []
  | o :: rest => schedGo [] [o] rest

/-! ## Rewrite engine (spec section 4.2)

Modelled from the spec: the rewrite machinery (Kirin's `Walk` /
`RydbergGateSetRewriteRule` / `QASM2Fold.fixpoint`) is library code.  A
ruleset is a pure function from an operation to either no match or a
replacement sequence; the engine splices the replacement of the first
match in place of the matched operation, and the `fixpoint` wrapper
repeats this until a whole pass produces no change, failing with
`NonTerminatingRewriteError` when the configurable iteration bound is
exceeded. -/

/-- Error raised when the fixpoint iteration bound is exceeded
(`NonTerminatingRewriteError` in the spec's taxonomy). -/
inductive RewriteError
  | nonTerminating
deriving DecidableEq

/-- One rewrite step: splice the replacement of the first matching
operation in place of the match; `none` when no rule matches anywhere
(the pass produces no change). -/
def rewriteOnce {α : Type} (rule : α → Option (List α)) : List α → Option (List α)
  | [] => none
  | a :: rest =>
    match rule a with
    | some repl => some (repl ++ rest)
    | none => (rewriteOnce rule rest).map fun r => a :: r

/-- Modelled from the spec: the `fixpoint(circuit, ruleset)` wrapper —
repeat rewriting until no rule matches, with a maximum-iteration bound;
exceeding the bound fails with `NonTerminatingRewriteError`. -/
def fixpoint {α : Type} (rule : α → Option (List α)) : Nat → List α → Except RewriteError (List α)
  | 0, _ => Except.error RewriteError.nonTerminating
  | b + 1, c =>
    match rewriteOnce rule c with
    | none => Except.ok c
    | some c2 => fixpoint rule b c2

/-! ## Native-gate decomposition ruleset (spec section 4.3)

Modelled from the spec: `RydbergGateSetRewriteRule` is library code.  The
canonical kinds `h`, `x`, `cx` are rewritten into the neutral-atom native
kinds `rz`, `rx`, `cz` by fixed decomposition identities (domain facts
supplied as data); `GateKind` is a closed enumeration, so every kind is
either canonical or native and no `UnsupportedGateError` case arises. -/

/-- Decomposition ruleset: `h` into `rz`–`rx`–`rz`, `x` into a pi `rx`
rotation, `cx` into `h`–`cz`–`h` on the target (the inner `h` gates are
decomposed further by later iterations of the fixpoint); native kinds,
measurements and barriers do not match. -/
def nativeRule : Op → Option (List Op)
  | .gate .h [q] [] =>
    some [Op.gate GateKind.rz [q] [(1 : ℚ)/2], Op.gate GateKind.rx [q] [(1 : ℚ)/2],
          Op.gate GateKind.rz [q] [(1 : ℚ)/2]]
  | .gate .x [q] [] => some [Op.gate GateKind.rx [q] [1]]
  | .gate .cx [c, t] [] =>
    some [Op.gate GateKind.h [t] [], Op.gate GateKind.cz [c, t] [],
          Op.gate GateKind.h [t] []]
  | _ => none

/-- The native decomposition of a single Hadamard on qubit 0, used as a
concrete fixpoint of `nativeRule`. -/
def hNativeOps : List Op :=
  [Op.gate GateKind.rz [0] [(1 : ℚ)/2], Op.gate GateKind.rx [0] [(1 : ℚ)/2],
   Op.gate GateKind.rz [0] [(1 : ℚ)/2]]

/-! ## Loop-folding / unrolling pass (spec section 4.4)

Modelled from the spec: `QASM2Fold` is library code.  The instruction
stream may contain repeated structural blocks (loops); folding expands a
loop with a static iteration count into its flat form, in order, so that
operations from different iterations become ordinary siblings. -/

/-- Instruction stream with structural loop blocks. -/
inductive Instr
  | op (o : Op)
  | loop (count : Nat) (body : List Instr)

/-- Loop-folding ruleset: a loop with static count `n` expands to its body
repeated `n` times, preserving order; flat instructions do not match. -/
def foldRule : Instr → Option (List Instr)
  | .op _ => none
  | .loop count body => some (List.flatten (List.replicate count body))

/-! ## Circuit construction and resource validation (spec section 4.1)

Modelled from the spec: the builder API (`qasm2.qreg`, `qasm2.creg`,
gate/measure appending) is library code.  A circuit records its declared
quantum and classical registers and its ordered operation stream; no
operation may reference an undeclared qubit or classical bit — the build
fails with `UnknownResourceError` identifying the offending operation. -/

/-- Circuit: declared quantum register sizes, declared classical register
sizes, and the ordered operation stream. -/
structure Circuit where
  qregs : List Nat
  cregs : List Nat
  ops : List Op

/-- Error raised when an operation references an undeclared qubit or
classical bit (`UnknownResourceError`), identifying the offending
operation. -/
inductive BuildError
  | unknownResource (offending : Op)
deriving DecidableEq

/-- Validity of one operation against registers of `nq` qubits and `nc`
classical bits: every referenced qubit and classical bit is declared. -/
def opValid (nq nc : Nat) : Op → Bool
  | .gate _ qs _ => qs.all fun q => decide (q < nq)
  | .measure q c => decide (q < nq) && decide (c < nc)
  | .barrier qs => qs.all fun q => decide (q < nq)

/-- Worker for `buildCircuit`: validate operations in order, aborting on
the first invalid one. -/
def buildGo (nq nc : Nat) (acc : List Op) : List Op → Except BuildError Circuit
  | [] => Except.ok ⟨[nq], [nc], acc.reverse⟩
  | o :: rest =>
    if opValid nq nc o then buildGo nq nc (o :: acc) rest
    else Except.error (BuildError.unknownResource o)

/-- Modelled from the spec: the construction API builds a circuit by
appending operations in program order over one `nq`-qubit and one
`nc`-bit register; an operation referencing an undeclared resource aborts
the build with `UnknownResourceError` and no circuit is produced. -/
def buildCircuit (nq nc : Nat) (ops : List Op) : Except BuildError Circuit :=
  buildGo nq nc [] ops

/-! ## The QFT circuit builder (notebook cells 9 and 12)

Direct embedding of `qft(n, bit_str, parallelize)` and its helper kernels
`dyadic_roatation_layer` and `cnot_fanout_layer` as the operation stream
emitted by `qft_program` (the construction, before the decorator's
passes run; rotation angles are recorded as exact rational coefficients
of pi). -/

/-- The helper kernel `dyadic_roatation_layer(qreg, n, start)`:
`for j in range(start + 1, n): rz(qreg[j], pi / 2**(j + 2))`. -/
def dyadicRotationLayer (n start : Nat) : List Op :=
  (List.range' (start + 1) (n - (start + 1))).map fun j =>
    Op.gate GateKind.rz [j] [(1 : ℚ) / 2 ^ (j + 2)]

/-- The helper kernel `cnot_fanout_layer(qreg, n, ctrl)`:
`for j in range(ctrl + 1, n): cx(qreg[ctrl], qreg[j])`. -/
def cnotFanoutLayer (n ctrl : Nat) : List Op :=
  (List.range' (ctrl + 1) (n - (ctrl + 1))).map fun j =>
    Op.gate GateKind.cx [ctrl, j] []

/-- The initialization loop of `qft_program`:
`for i in range(len(bit_str)): if bit_str[i] == '1': x(qreg[i])`. -/
def initOps (bitStr : List Char) : List Op :=
  List.flatten ((List.range bitStr.length).map fun i =>
    if bitStr.getD i '0' = '1' then [Op.gate GateKind.x [i] []] else [])

/-- The main loop of `qft_program`: for each `i < n`, a Hadamard, two
dyadic-rotation/CNOT-fanout rounds, and the closing
`rz(qreg[i], ((2**(n - i + 1) - 1) * pi) / 2**(n - i + 2))`. -/
def qftBody (n : Nat) : List Op :=
  List.flatten ((List.range n).map fun i =>
    [Op.gate GateKind.h [i] []]
      ++ dyadicRotationLayer n i ++ cnotFanoutLayer n i
      ++ dyadicRotationLayer n i ++ cnotFanoutLayer n i
      ++ [Op.gate GateKind.rz [i] [((2 : ℚ) ^ (n - i + 1) - 1) / 2 ^ (n - i + 2)]])

/-- The measurement loop of `qft_program`:
`for i in range(n): measure(qreg[i], creg[i])`. -/
def measureOps (n : Nat) : List Op :=
  (List.range n).map fun i => Op.measure i i

/-- The kernel built by `qft(n, bit_str)`: one `n`-qubit register, one
`n`-bit classical register, and the operation stream of `qft_program`
(initialization, main QFT body, measurements).  The `parallelize`
argument of `qft` only selects compiler passes (see `runPassEvents`) and
does not affect construction. -/
def qftCircuit (n : Nat) (bitStr : List Char) : Circuit :=
  ⟨[n], [n], initOps bitStr ++ qftBody n ++ measureOps n⟩

/-! ## Theorems for claims C1 and C2 -/

/-- Claim C1: for every flag assignment, `run_pass` invokes the
parallelization scheduler iff `parallelize` is true; when it is false
neither the loop-fold fixpoint nor the parallelization pass runs and the
trace is the pass-through baseline (base pass plus decomposition only);
when it is true the trace ends with decomposition, then loop folding,
then parallelization scheduling, strictly in that order. -/
theorem run_pass_parallelize_gating (flags : RunPassFlags) :
    (PassEvent.parallelSchedule ∈ runPassEvents flags ↔ flags.parallelize = true)
    ∧ (flags.parallelize = false →
        PassEvent.aggFoldFix ∉ runPassEvents flags
        ∧ PassEvent.parallelSchedule ∉ runPassEvents flags
        ∧ runPassEvents flags
            = baseRunPassEvents flags.fold flags.typeinfer
                ++ [PassEvent.nativeDecompose])
    ∧ (flags.parallelize = true →
        runPassEvents flags
          = baseRunPassEvents flags.fold flags.typeinfer
              ++ [PassEvent.nativeDecompose, PassEvent.aggFoldFix,
                  PassEvent.parallelSchedule]) := by
  obtain ⟨f, t, p⟩ := flags
  cases f <;> cases t <;> cases p <;> simp [runPassEvents, baseRunPassEvents]

/-- Witness for C1 at the default flags (`parallelize = false`). -/
theorem run_pass_parallelize_gating_witness :
    PassEvent.parallelSchedule ∉ runPassEvents {}
    ∧ runPassEvents {}
        = baseRunPassEvents true true ++ [PassEvent.nativeDecompose] :=
  ⟨((run_pass_parallelize_gating {}).2.1 rfl).2.1,
   ((run_pass_parallelize_gating {}).2.1 rfl).2.2⟩

/-- Claim C2: `run_pass` exposes the three keyword flags `fold`,
`typeinfer`, `parallelize` (the fields of `RunPassFlags`), with
`parallelize` defaulting to false (and `fold`, `typeinfer` to true); when
`fold` is true the fold runs before any scheduling event, and when
`typeinfer` is true the type validation runs before decomposition. -/
theorem run_pass_flag_surface :
    ({} : RunPassFlags).fold = true
    ∧ ({} : RunPassFlags).typeinfer = true
    ∧ ({} : RunPassFlags).parallelize = false
    ∧ (∀ flags : RunPassFlags, flags.fold = true →
        ∃ pre post, runPassEvents flags = pre ++ [PassEvent.baseFold] ++ post
          ∧ PassEvent.parallelSchedule ∉ pre)
    ∧ (∀ flags : RunPassFlags, flags.typeinfer = true →
        ∃ pre post,
          runPassEvents flags = pre ++ [PassEvent.typeInferCheck] ++ post
          ∧ PassEvent.nativeDecompose ∉ pre) := by
  refine ⟨rfl, rfl, rfl, ?_, ?_⟩
  · rintro ⟨f, t, p⟩ hf
    subst hf
    cases t <;> cases p
    · exact ⟨[], [PassEvent.nativeDecompose], rfl, by simp⟩
    · exact ⟨[], [PassEvent.nativeDecompose, PassEvent.aggFoldFix,
        PassEvent.parallelSchedule], rfl, by simp⟩
    · exact ⟨[PassEvent.typeInferCheck], [PassEvent.nativeDecompose], rfl, by simp⟩
    · exact ⟨[PassEvent.typeInferCheck], [PassEvent.nativeDecompose,
        PassEvent.aggFoldFix, PassEvent.parallelSchedule], rfl, by simp⟩
  · rintro ⟨f, t, p⟩ ht
    subst ht
    cases f <;> cases p
    · exact ⟨[], [PassEvent.nativeDecompose], rfl, by simp⟩
    · exact ⟨[], [PassEvent.nativeDecompose, PassEvent.aggFoldFix,
        PassEvent.parallelSchedule], rfl, by simp⟩
    · exact ⟨[], [PassEvent.baseFold, PassEvent.nativeDecompose], rfl, by simp⟩
    · exact ⟨[], [PassEvent.baseFold, PassEvent.nativeDecompose,
        PassEvent.aggFoldFix, PassEvent.parallelSchedule], rfl, by simp⟩

/-- Witness for C2: at the default flags, `fold` is on and the fold event
precedes any scheduling event. -/
theorem run_pass_flag_surface_witness :
    ({} : RunPassFlags).parallelize = false
    ∧ ∃ pre post, runPassEvents {} = pre ++ [PassEvent.baseFold] ++ post
        ∧ PassEvent.parallelSchedule ∉ pre :=
  ⟨run_pass_flag_surface.2.2.1, run_pass_flag_surface.2.2.2.1 {} rfl⟩

/-! ## Theorems for claims C3 and C4 (scheduler invariants) -/

/-- Characterisation of layer compatibility. -/
theorem compat_eq_true_iff (a b : Op) :
    compat a b = true ↔
      (∀ q ∈ qubitsOf a, q ∉ qubitsOf b)
      ∨ (isDiagonal a = true ∧ isDiagonal b = true) := by
  simp [compat, qubitDisjoint]

/-- Layer compatibility is symmetric. -/
theorem compat_symm (a b : Op) (h : compat a b = true) : compat b a = true := by
  rw [compat_eq_true_iff] at h ⊢
  rcases h with h | h
  · exact Or.inl fun q hqb hqa => h q hqa hqb
  · exact Or.inr ⟨h.2, h.1⟩

/-- Every layer produced by the scheduler worker is pairwise compatible,
given that the already-closed layers and the open layer are. -/
theorem schedGo_pairwise (ops : List Op) :
    ∀ done cur,
      (∀ L ∈ done, L.Pairwise fun a b => compat a b = true) →
      cur.Pairwise (fun a b => compat a b = true) →
      ∀ L ∈ schedGo done cur ops, L.Pairwise fun a b => compat a b = true := by
  induction ops with
  | nil =>
    intro done cur hdone hcur L hL
    rw [schedGo, List.mem_append] at hL
    rcases hL with hL | hL
    · exact hdone L hL
    · rw [List.mem_singleton] at hL
      exact hL ▸ hcur
  | cons o rest ih =>
    intro done cur hdone hcur L hL
    rw [schedGo] at hL
    by_cases h : cur.all (fun p => compat p o) = true
    · rw [if_pos h] at hL
      refine ih done (cur ++ [o]) hdone ?_ L hL
      rw [List.pairwise_append]
      refine ⟨hcur, List.pairwise_singleton _ _, ?_⟩
      intro a ha b hb
      rw [List.mem_singleton] at hb
      subst hb
      exact (List.all_eq_true.mp h) a ha
    · rw [if_neg h] at hL
      refine ih (done ++ [cur]) [o] ?_ (List.pairwise_singleton _ _) L hL
      intro M hM
      rw [List.mem_append] at hM
      rcases hM with hM | hM
      · exact hdone M hM
      · rw [List.mem_singleton] at hM
        exact hM ▸ hcur

/-- Every layer produced by the scheduler is pairwise compatible. -/
theorem schedule_pairwise (ops : List Op) :
    ∀ L ∈ schedule ops, L.Pairwise fun a b => compat a b = true := by
  cases ops with
  | nil => intro L hL; simp [schedule] at hL
  | cons o rest =>
    exact schedGo_pairwise rest [] [o] (by simp) (List.pairwise_singleton _ _)

/-- Claim C3: for every circuit produced by the parallelization scheduler
and every pair of distinct operations placed in the same layer, the two
are qubit-disjoint or provably commuting (both diagonal/phase-only) —
never two non-commuting operations sharing a qubit in one layer. -/
theorem schedule_layer_disjoint_or_commuting
    (ops L : List Op) (a b : Op)
    (hL : L ∈ schedule ops) (ha : a ∈ L) (hb : b ∈ L) (hab : a ≠ b) :
    (∀ q ∈ qubitsOf a, q ∉ qubitsOf b)
    ∨ (isDiagonal a = true ∧ isDiagonal b = true) := by
  have hpw := schedule_pairwise ops L hL
  have hsymm : Symmetric fun a b : Op => compat a b = true :=
    fun x y hxy => compat_symm x y hxy
  exact (compat_eq_true_iff a b).mp (hpw.forall hsymm ha hb hab)

/-- Witness for C3: two one-qubit `rz` rotations on distinct qubits are
placed in the same layer and are indeed disjoint-or-commuting. -/
theorem schedule_layer_disjoint_or_commuting_witness :
    (∀ q ∈ qubitsOf (Op.gate GateKind.rz [0] [1]),
        q ∉ qubitsOf (Op.gate GateKind.rz [1] [1]))
    ∨ (isDiagonal (Op.gate GateKind.rz [0] [1]) = true
        ∧ isDiagonal (Op.gate GateKind.rz [1] [1]) = true) :=
  schedule_layer_disjoint_or_commuting
    [Op.gate GateKind.rz [0] [1], Op.gate GateKind.rz [1] [1]]
    [Op.gate GateKind.rz [0] [1], Op.gate GateKind.rz [1] [1]]
    (Op.gate GateKind.rz [0] [1]) (Op.gate GateKind.rz [1] [1])
    (by decide) (by decide) (by decide) (by decide)

/-- Flattening the scheduler worker's output recovers the closed layers,
the open layer and the pending operations, in order. -/
theorem schedGo_join (ops : List Op) :
    ∀ done cur,
      (schedGo done cur ops).flatten = done.flatten ++ cur ++ ops := by
  induction ops with
  | nil => intro done cur; simp [schedGo]
  | cons o rest ih =>
    intro done cur
    rw [schedGo]
    by_cases h : cur.all (fun p => compat p o) = true
    · rw [if_pos h, ih]
      simp
    · rw [if_neg h, ih]
      simp

/-- Flattening the layer sequence produced by the scheduler recovers the
original operation stream exactly. -/
theorem schedule_join (ops : List Op) : (schedule ops).flatten = ops := by
  cases ops with
  | nil => rfl
  | cons o rest => rw [schedule, schedGo_join]; simp

/-- Claim C4: for every input circuit and every qubit, flattening the
layer sequence produced by the parallelization scheduler back to linear
order and restricting to the operations touching that qubit reproduces
the original per-qubit operation order exactly. -/
theorem schedule_preserves_per_qubit_order (ops : List Op) (q : Nat) :
    ((schedule ops).flatten.filter (touches q)) = ops.filter (touches q) := by
  rw [schedule_join]

/-! ## Theorems for claim C5 (idempotence of fixpoint passes) -/

/-- Unfolding equation for `fixpoint` at a positive bound. -/
theorem fixpoint_succ {α : Type} (rule : α → Option (List α)) (b : Nat) (c : List α) :
    fixpoint rule (b + 1) c
      = match rewriteOnce rule c with
        | none => Except.ok c
        | some c2 => fixpoint rule b c2 := rfl

/-- A circuit returned successfully by `fixpoint` admits no further
rewrite: the pass that ended the iteration produced no change. -/
theorem fixpoint_ok_no_match {α : Type} (rule : α → Option (List α)) :
    ∀ (b : Nat) (c d : List α), fixpoint rule b c = Except.ok d →
      rewriteOnce rule d = none := by
  intro b
  induction b with
  | zero => intro c d h; exact absurd h (by simp [fixpoint])
  | succ b ih =>
    intro c d h
    rw [fixpoint_succ] at h
    split at h
    · rename_i hr
      cases h
      exact hr
    · rename_i c2 hr
      exact ih c2 d h

/-- On a circuit that admits no rewrite, `fixpoint` returns it unchanged
for every positive bound. -/
theorem fixpoint_of_no_match {α : Type} (rule : α → Option (List α)) (b : Nat)
    (d : List α) (h : rewriteOnce rule d = none) :
    fixpoint rule (b + 1) d = Except.ok d := by
  rw [fixpoint_succ, h]

/-- Claim C5: both fixpoint passes are idempotent — whenever the
native-gate decomposition fixpoint succeeds, running it again on the
result returns the result unchanged, and moreover one further application
of the decomposition rewrite finds no match (the decomposition has fully
reached fixpoint); likewise the loop-folding fixpoint is idempotent. -/
theorem fixpoint_passes_idempotent :
    (∀ (b : Nat) (c d : List Op), fixpoint nativeRule b c = Except.ok d →
        rewriteOnce nativeRule d = none
        ∧ ∀ b' : Nat, fixpoint nativeRule (b' + 1) d = Except.ok d)
    ∧ (∀ (b : Nat) (c d : List Instr), fixpoint foldRule b c = Except.ok d →
        ∀ b' : Nat, fixpoint foldRule (b' + 1) d = Except.ok d) :=
  ⟨fun b c d h =>
    ⟨fixpoint_ok_no_match nativeRule b c d h,
     fun b' =>
       fixpoint_of_no_match nativeRule b' d (fixpoint_ok_no_match nativeRule b c d h)⟩,
   fun b c d h b' =>
     fixpoint_of_no_match foldRule b' d (fixpoint_ok_no_match foldRule b c d h)⟩

/-- Witness for C5: decomposing a single Hadamard reaches the fixpoint
`hNativeOps`, which a second fixpoint run (and a further rewrite attempt)
leaves unchanged; likewise a one-iteration loop unfolds and stays fixed. -/
theorem fixpoint_passes_idempotent_witness :
    rewriteOnce nativeRule hNativeOps = none
    ∧ fixpoint nativeRule 1 hNativeOps = Except.ok hNativeOps
    ∧ fixpoint foldRule 1 [Instr.op (Op.gate GateKind.x [0] [])]
        = Except.ok [Instr.op (Op.gate GateKind.x [0] [])] :=
  ⟨(fixpoint_passes_idempotent.1 2 [Op.gate GateKind.h [0] []] hNativeOps rfl).1,
   (fixpoint_passes_idempotent.1 2 [Op.gate GateKind.h [0] []] hNativeOps rfl).2 0,
   fixpoint_passes_idempotent.2 2
     [Instr.loop 1 [Instr.op (Op.gate GateKind.x [0] [])]]
     [Instr.op (Op.gate GateKind.x [0] [])] rfl 0⟩

/-! ## Theorems for claim C7 (undeclared-resource error) -/

/-- The build worker aborts with `UnknownResourceError` naming an invalid
operation whenever the remaining stream contains one. -/
theorem buildGo_error (nq nc : Nat) :
    ∀ (ops acc : List Op), (∃ o, o ∈ ops ∧ opValid nq nc o = false) →
      ∃ bad, bad ∈ ops ∧ opValid nq nc bad = false ∧
        buildGo nq nc acc ops = Except.error (BuildError.unknownResource bad) := by
  intro ops
  induction ops with
  | nil =>
    rintro acc ⟨o, ho, -⟩
    exact absurd ho (List.not_mem_nil o)
  | cons o rest ih =>
    rintro acc ⟨w, hw, hwv⟩
    cases hv : opValid nq nc o with
    | false =>
      exact ⟨o, List.mem_cons_self o rest, hv, by simp [buildGo, hv]⟩
    | true =>
      have hwrest : w ∈ rest := by
        rcases List.mem_cons.mp hw with h | h
        · rw [h, hv] at hwv; cases hwv
        · exact h
      obtain ⟨bad, h1, h2, h3⟩ := ih (o :: acc) ⟨w, hwrest, hwv⟩
      refine ⟨bad, List.mem_cons_of_mem o h1, h2, ?_⟩
      simpa [buildGo, hv] using h3

/-- Claim C7: whenever the operation stream contains an operation
referencing an undeclared qubit or classical bit, the build aborts with
`UnknownResourceError` identifying an offending operation, and no
(partially built) output circuit is observable to the caller. -/
theorem undeclared_bit_unknown_resource (nq nc : Nat) (ops : List Op)
    (h : ∃ o, o ∈ ops ∧ opValid nq nc o = false) :
    ∃ bad, bad ∈ ops ∧ opValid nq nc bad = false
      ∧ buildCircuit nq nc ops = Except.error (BuildError.unknownResource bad)
      ∧ ∀ circ : Circuit, buildCircuit nq nc ops ≠ Except.ok circ := by
  obtain ⟨bad, h1, h2, h3⟩ := buildGo_error nq nc ops [] h
  refine ⟨bad, h1, h2, h3, ?_⟩
  intro circ hc
  rw [buildCircuit, h3] at hc
  cases hc

/-- Witness for C7: a measurement into classical bit 5 of a 4-bit
register aborts the build with `UnknownResourceError`. -/
theorem undeclared_bit_unknown_resource_witness :
    ∃ bad, bad ∈ [Op.measure 0 5] ∧ opValid 4 4 bad = false
      ∧ buildCircuit 4 4 [Op.measure 0 5]
          = Except.error (BuildError.unknownResource bad)
      ∧ ∀ circ : Circuit, buildCircuit 4 4 [Op.measure 0 5] ≠ Except.ok circ :=
  undeclared_bit_unknown_resource 4 4 [Op.measure 0 5]
    ⟨Op.measure 0 5, by decide, by decide⟩

/-! ## Theorems for claims C9 and C10 (the `qft` builder) -/

/-- A guarded singleton comprehension flattens to a map over a filter. -/
theorem flatten_map_ite {β : Type} (p : Nat → Prop) [DecidablePred p]
    (f : Nat → β) :
    ∀ l : List Nat,
      List.flatten (l.map fun i => if p i then [f i] else [])
        = (l.filter fun i => decide (p i)).map f := by
  intro l
  induction l with
  | nil => rfl
  | cons a t ih => by_cases hp : p a <;> simp [hp, ih]

/-- Claim C9: for `1 ≤ n` and `bit_str` of length at most `n`, the kernel
built by `qft(n, bit_str, parallelize)` declares exactly one `n`-qubit
quantum register and one `n`-bit classical register, begins with X gates
on `qreg[i]` for exactly the positions `i` with `bit_str[i] == '1'` in
increasing order, and ends with the `n` measurements
`measure(qreg[i], creg[i])` for `i = 0 .. n-1` in increasing order. -/
theorem qft_builder_structure (n : Nat) (bitStr : List Char)
    (_h1 : 1 ≤ n) (_h2 : bitStr.length ≤ n) :
    (qftCircuit n bitStr).qregs = [n]
    ∧ (qftCircuit n bitStr).cregs = [n]
    ∧ ∃ rest, (qftCircuit n bitStr).ops
        = ((List.range bitStr.length).filter fun i =>
              decide (bitStr.getD i '0' = '1')).map (fun i => Op.gate GateKind.x [i] [])
          ++ rest
          ++ (List.range n).map fun i => Op.measure i i := by
  refine ⟨rfl, rfl, qftBody n, ?_⟩
  show initOps bitStr ++ qftBody n ++ measureOps n = _
  rw [initOps, flatten_map_ite]
  rfl

/-- Witness for C9 at the notebook's concrete call `qft(4, "0101")`. -/
theorem qft_builder_structure_witness :
    (qftCircuit 4 ['0', '1', '0', '1']).qregs = [4] :=
  (qft_builder_structure 4 ['0', '1', '0', '1'] (by decide) (by decide)).1

/-- Claim C10: the initialization loop of `qft_program` emits X gates
only on positions `i < len(bit_str)` carrying a `'1'`; under the
precondition `len(bit_str) ≤ n` every such access lies inside the
declared `n`-qubit register, whereas for some input with
`len(bit_str) > n` and a `'1'` at a position at or beyond `n` the builder
references a qubit index outside the declared register. -/
theorem qft_init_indexing :
    (∀ (n : Nat) (bitStr : List Char), bitStr.length ≤ n →
        ∀ op, op ∈ initOps bitStr → ∀ q, q ∈ qubitsOf op → q < n)
    ∧ (∃ (n : Nat) (bitStr : List Char), n < bitStr.length
        ∧ ∃ op, op ∈ initOps bitStr ∧ ∃ q, q ∈ qubitsOf op ∧ n ≤ q) := by
  constructor
  · intro n s hlen op hop q hq
    rw [initOps, flatten_map_ite] at hop
    obtain ⟨i, hi, rfl⟩ := List.mem_map.mp hop
    have hi2 : i < s.length := List.mem_range.mp (List.mem_of_mem_filter hi)
    have hqi : q = i := by simpa [qubitsOf] using hq
    subst hqi
    exact lt_of_lt_of_le hi2 hlen
  · exact ⟨1, ['0', '1'], by decide, Op.gate GateKind.x [1] [], by decide, 1,
      by decide, le_refl 1⟩

/-- Witness for C10: on input `"01"` with a 4-qubit register the emitted
X access hits qubit 1, inside the register; the out-of-range half is the
theorem's own concrete second component. -/
theorem qft_init_indexing_witness :
    1 < 4
    ∧ (∃ (n : Nat) (bitStr : List Char), n < bitStr.length
        ∧ ∃ op, op ∈ initOps bitStr ∧ ∃ q, q ∈ qubitsOf op ∧ n ≤ q) :=
  ⟨qft_init_indexing.1 4 ['0', '1'] (by decide) (Op.gate GateKind.x [1] [])
      (by decide) 1 (by decide),
   qft_init_indexing.2⟩

end QftPipeline
